import Mathlib

/-!
A shallow embedding of the chunking / indexing / retrieval core of the
`rag_mcp` package (`src/rag_mcp/indexer.py`), together with theorems
checking the specification's claims about it.

Modelling conventions:
* Python `str` text is modelled as `List Char`; Python floats (embedding
  distances and scores, where only ordering and subtraction are used) as
  `ℚ`; Python `int` as `Int`, converted to `Nat` where provably
  nonnegative.
* Fallible Python code (a raised `ValueError` or backend error) is
  modelled with `Except String`.
* A Python `dict` (insertion ordered) is modelled as an association list
  in which updating an existing key keeps its position and a new key is
  appended at the end.
* The external collaborators (document loader, embedding backend, vector
  store) are parameters: `build_index` takes the already-loaded document
  list and an embedder, `query_index` takes an embedder and a
  vector-store query oracle.  Calls to the collaborators are recorded in
  the returned outcome so that claims of the form "the backend was not
  invoked" are statable.
-/

deriving instance DecidableEq for Except

namespace Rag

/-- Python `str.strip()`: remove leading and trailing whitespace. -/
def pyStrip (s : List Char) : List Char :=
  ((s.dropWhile Char.isWhitespace).reverse.dropWhile Char.isWhitespace).reverse

/-- The clamp `overlap = max(0, min(chunk_overlap, chunk_size - 1))` from
`chunk_text`, as a natural number (the clamp makes the value nonnegative). -/
def clampOverlap (chunk_size chunk_overlap : Int) : Nat :=
  (max 0 (min chunk_overlap (chunk_size - 1))).toNat

/-- The `while start < length` loop of `chunk_text`.  One call is one loop
iteration at position `start`; the window `text[start:end]` with
`end = min(start + chunk_size, length)` is `(text.drop start).take n`, the
`if end >= length: break` test is `¬ start + n < text.length`, and the
update `start = end - overlap` (taken only when `end = start + n`) is
`start + n - ov`.  The hypothesis `hov : ov < n` is exactly the progress
fact that the clamp in `chunk_text` establishes; it makes the loop
terminate. -/
def chunkLoop (text : List Char) (n ov : Nat) (hov : ov < n) (start : Nat) :
    List (List Char) :=
  if h : start < text.length then
    let c := pyStrip ((text.drop start).take n)
    let rest :=
      if h2 : start + n < text.length then
        chunkLoop text n ov hov (start + n - ov)
      else []
    if c = [] then rest else c :: rest
  else []
termination_by text.length - start
decreasing_by omega

/-- The function `chunk_text(text, chunk_size, chunk_overlap)` from
`indexer.py`: raise
`ValueError` on a non-positive `chunk_size`, clamp the overlap, then scan
the text in windows of width `chunk_size`, stripping each window and
dropping results that strip to empty. -/
def chunk_text (text : List Char) (chunk_size chunk_overlap : Int) :
    Except String (List (List Char)) :=
  if h : chunk_size ≤ 0 then .error "chunk_size must be positive"
  else
    .ok (chunkLoop text chunk_size.toNat (clampOverlap chunk_size chunk_overlap)
      (by simp only [clampOverlap]; omega) 0)

/-- The untrimmed windows that the `chunk_text` loop visits: same control
flow as `chunkLoop`, before the `strip` and the drop-empty filter. -/
def windowLoop (text : List Char) (n ov : Nat) (hov : ov < n) (start : Nat) :
    List (List Char) :=
  if h : start < text.length then
    ((text.drop start).take n) ::
      (if h2 : start + n < text.length then
        windowLoop text n ov hov (start + n - ov)
      else [])
  else []
termination_by text.length - start
decreasing_by omega

/-- The windows visited by `chunk_text text n ov` when `ov < n` (the only
case `chunk_text` produces, thanks to the clamp). -/
def windows (text : List Char) (n ov : Nat) : List (List Char) :=
  if h : ov < n then windowLoop text n ov h 0 else []

/-- Following the spec's words: the "non-overlapping portions of the
successive windows" — the first window taken whole, every later window
with its first `ov` (overlapped) characters removed. -/
def nonOverlapPortions (ov : Nat) : List (List Char) → List (List Char)
  | [] => []
  | w :: ws => w :: ws.map (List.drop ov)

/-- A loaded document (`documents.Document`): `doc_id` is the stable hash
of the relative path, computed by the external document loader. -/
structure Document where
  doc_id : String
  path : String
  content : List Char
  deriving DecidableEq

/-- A derived chunk (`indexer.Chunk`). -/
structure Chunk where
  chunk_id : String
  doc_id : String
  content : List Char
  source_path : String
  index : Nat
  deriving DecidableEq

/-- One Document Store record: the `{path, content}` dict stored per
doc id. -/
structure DocRecord where
  path : String
  content : List Char
  deriving DecidableEq

/-- The in-memory state of `DocStore` — the Python dict
`self._docs : dict[str, {path, content}]`, as an insertion-ordered
association list with unique keys. -/
abbrev Store := List (String × DocRecord)

/-- Python dict lookup, `self._docs.get(doc_id)`. -/
def Store.get (s : Store) (k : String) : Option DocRecord :=
  (s.find? (fun p => p.1 == k)).map Prod.snd

/-- Python `DocStore.count`: `len(self._docs)`. -/
def Store.count (s : Store) : Nat := s.length

/-- Python `DocStore.add`: the dict upsert `self._docs[doc_id] = {path, content}`
— replaces the value in place when the key exists, appends otherwise. -/
def Store.add (s : Store) (d : Document) : Store :=
  if (Store.get s d.doc_id).isSome then
    s.map (fun p => if p.1 == d.doc_id then (d.doc_id, ⟨d.path, d.content⟩) else p)
  else s ++ [(d.doc_id, ⟨d.path, d.content⟩)]

/-- The embedding capability: `embed_texts` may fail (missing backend or
model error); the pipelines propagate such a failure. -/
structure Embedder where
  embed_texts : List (List Char) → Except String (List (List ℚ))

/-- The helper `_build_chunks`: chunk every document in order, tagging each emitted
chunk with `"{doc_id}:{index}"`, the doc id, the source path and its
index.  A `ValueError` raised by `chunk_text` propagates. -/
def buildChunks (documents : List Document) (chunk_size chunk_overlap : Int) :
    Except String (List Chunk) :=
  documents.foldlM
    (fun acc doc => do
      let cks ← chunk_text doc.content chunk_size chunk_overlap
      pure (acc ++ cks.enum.map (fun ic =>
        { chunk_id := doc.doc_id ++ ":" ++ toString ic.1
          doc_id := doc.doc_id
          content := ic.2
          source_path := doc.path
          index := ic.1 })))
    []

/-- The batched payload one `upsert`/`add` call passes to the vector
collection: parallel lists of ids, chunk texts,
`{doc_id, source_path, chunk_index}` metadata, and embeddings. -/
structure Payload where
  ids : List String
  documents : List (List Char)
  metadatas : List (String × String × Nat)
  embeddings : List (List ℚ)
  deriving DecidableEq

/-- The summary dict returned by `build_index`. -/
structure BuildSummary where
  docs_dir : String
  data_dir : String
  collection : String
  doc_count : Nat
  chunk_count : Nat
  deriving DecidableEq

/-- What a `build_index` call leaves behind: its return value (or the
propagated error), the persisted Document Store file content, the batches
passed to `embed_texts`, and the payloads upserted into the collection. -/
structure BuildOutcome where
  result : Except String BuildSummary
  store : Store
  embedCalls : List (List (List Char))
  upserts : List Payload
  deriving DecidableEq

/-- The pipeline `build_index` with the external collaborators factored out:
`documents` is what `load_documents(docs_dir)` returned and `prior` is
the persisted Document Store content that `doc_store.load()` reads.  The
steps follow the source order: clear (rebuild) or load the store, add
every loaded document, save — the store is durable from that point on —
then chunk, return early on zero chunks, embed, and upsert. -/
def build_index (docs_dir data_dir collection_name : String)
    (documents : List Document) (prior : Store)
    (chunk_size chunk_overlap : Int) (embedder : Embedder)
    (rebuild : Bool) : BuildOutcome :=
  let store0 : Store := if rebuild then [] else prior
  let store1 := documents.foldl Store.add store0
  match buildChunks documents chunk_size chunk_overlap with
  | .error e => ⟨.error e, store1, [], []⟩
  | .ok chunks =>
    if chunks.isEmpty then
      ⟨.ok ⟨docs_dir, data_dir, collection_name, documents.length, 0⟩,
       store1, [], []⟩
    else
      match embedder.embed_texts (chunks.map Chunk.content) with
      | .error e => ⟨.error e, store1, [chunks.map Chunk.content], []⟩
      | .ok embeddings =>
        ⟨.ok ⟨docs_dir, data_dir, collection_name, documents.length, chunks.length⟩,
         store1,
         [chunks.map Chunk.content],
         [⟨chunks.map Chunk.chunk_id, chunks.map Chunk.content,
           chunks.map (fun c => (c.doc_id, c.source_path, c.index)), embeddings⟩]⟩

/-- Chunk metadata as the vector store returns it on a query hit; the
query pipeline only consults the (possibly absent) `doc_id` field. -/
structure HitMeta where
  doc_id : Option String
  deriving DecidableEq

/-- Python `metadata.get("doc_id") if metadata else None`, with falsy ids
(`None` or the empty string, both skipped by `if not doc_id`) mapped to
`none`. -/
def hitId (meta : Option HitMeta) : Option String :=
  match meta.bind HitMeta.doc_id with
  | none => none
  | some d => if d = "" then none else some d

/-- Dict lookup in the `best_scores` accumulator. -/
def lookupQ (m : List (String × ℚ)) (d : String) : Option ℚ :=
  (m.find? (fun p => p.1 == d)).map Prod.snd

/-- One iteration of the `for metadata, distance in zip(...)` aggregation
loop: skip hits without a usable doc id, record a first distance, and
keep the smaller distance per doc id (`best_scores[doc_id] = distance`
on a dict keeps the key's position). -/
def updateBest (m : List (String × ℚ)) (meta : Option HitMeta) (dist : ℚ) :
    List (String × ℚ) :=
  match hitId meta with
  | none => m
  | some d =>
    match lookupQ m d with
    | none => m ++ [(d, dist)]
    | some cur =>
      if dist < cur then m.map (fun p => if p.1 == d then (d, dist) else p)
      else m

/-- The `best_scores` dict after the aggregation loop over the zipped
`(metadata, distance)` hits. -/
def bestScores (hits : List (Option HitMeta × ℚ)) : List (String × ℚ) :=
  hits.foldl (fun m h => updateBest m h.1 h.2) []

/-- Python `sorted(best_scores.items(), key=lambda item: item[1])[:top_k]`.
Python's `sorted` is a stable sort by the distance; a stable insertion
sort models it. -/
def rankedDocs (hits : List (Option HitMeta × ℚ)) (top_k : Nat) :
    List (String × ℚ) :=
  (List.insertionSort (fun a b => a.2 ≤ b.2) (bestScores hits)).take top_k

/-- One entry of the `results` list `query_index` returns. -/
structure QueryResultEntry where
  doc_id : String
  source_path : String
  score : ℚ
  content : List Char
  deriving DecidableEq

/-- The response-building loop of `query_index`: look each ranked doc id
up in the Document Store, skip silently when absent, and emit
`score = 1.0 - distance` (not clamped). -/
def buildResponse (ranked : List (String × ℚ)) (store : Store) :
    List QueryResultEntry :=
  ranked.filterMap (fun p =>
    (Store.get store p.1).map (fun rec =>
      ⟨p.1, rec.path, 1 - p.2, rec.content⟩))

/-- The value `query_index` returns: `{query, results}`. -/
structure QueryResponse where
  query : List Char
  results : List QueryResultEntry
  deriving DecidableEq

/-- What a `query_index` call does: its return value (or the propagated
embedding error), how many `embed_texts` calls it made, and whether it
queried the vector collection. -/
structure QueryOutcome where
  result : Except String QueryResponse
  embedCalls : Nat
  vstoreQueried : Bool
  deriving DecidableEq

/-- The pipeline `query_index` with the collaborators factored out: `store` is the
loaded Document Store content and `vstore` the vector-store oracle,
mapping the query embeddings and `n_results = top_k` to the parallel
`metadatas` / `distances` hit lists of the stored reply (which the
source zips together, truncating to the shorter list). -/
def query_index (query : List Char) (store : Store) (top_k : Nat)
    (embedder : Embedder)
    (vstore : List (List ℚ) → Nat → List (Option HitMeta) × List ℚ) :
    QueryOutcome :=
  if Store.count store = 0 then ⟨.ok ⟨query, []⟩, 0, false⟩
  else
    match embedder.embed_texts [query] with
    | .error e => ⟨.error e, 1, false⟩
    | .ok qe =>
      let raw := vstore qe top_k
      let hits := raw.1.zip raw.2
      ⟨.ok ⟨query, buildResponse (rankedDocs hits top_k) store⟩, 1, true⟩

/-- Stated from the spec's words, for comparison with the aggregation
loop: the minimum distance among the hits that carry the given doc id. -/
def minDistSpec (hits : List (Option HitMeta × ℚ)) (d : String) : Option ℚ :=
  ((hits.filter (fun h => hitId h.1 == some d)).map Prod.snd).min?

/-! ### Chunker lemmas -/

theorem pyStrip_length_le (s : List Char) : (pyStrip s).length ≤ s.length := by
  simp only [pyStrip, List.length_reverse]
  calc ((s.dropWhile Char.isWhitespace).reverse.dropWhile Char.isWhitespace).length
      ≤ (s.dropWhile Char.isWhitespace).reverse.length :=
        (List.dropWhile_sublist _).length_le
    _ = (s.dropWhile Char.isWhitespace).length := List.length_reverse _
    _ ≤ s.length := (List.dropWhile_sublist _).length_le

theorem chunkLoop_unfold (text : List Char) (n ov : Nat) (hov : ov < n) (start : Nat) :
    chunkLoop text n ov hov start =
      if start < text.length then
        (if pyStrip ((text.drop start).take n) = [] then []
         else [pyStrip ((text.drop start).take n)]) ++
        (if start + n < text.length then chunkLoop text n ov hov (start + n - ov) else [])
      else [] := by
  rw [chunkLoop]
  split_ifs <;> simp_all

theorem windowLoop_unfold (text : List Char) (n ov : Nat) (hov : ov < n) (start : Nat) :
    windowLoop text n ov hov start =
      if start < text.length then
        ((text.drop start).take n) ::
          (if start + n < text.length then windowLoop text n ov hov (start + n - ov) else [])
      else [] := by
  rw [windowLoop]
  split_ifs <;> simp_all

theorem chunkLoop_ne_nil (text : List Char) (n ov : Nat) (hov : ov < n) :
    ∀ start, ∀ c ∈ chunkLoop text n ov hov start, c ≠ [] := by
  have key : ∀ k start, text.length - start = k →
      ∀ c ∈ chunkLoop text n ov hov start, c ≠ [] := by
    intro k
    induction k using Nat.strong_induction_on with
    | _ k ih =>
      intro start hk c hc
      rw [chunkLoop_unfold] at hc
      by_cases h1 : start < text.length
      · simp only [if_pos h1, List.mem_append] at hc
        rcases hc with hc | hc
        · by_cases hps : pyStrip ((text.drop start).take n) = []
          · simp [hps] at hc
          · simp only [if_neg hps, List.mem_singleton] at hc
            exact hc ▸ hps
        · by_cases h2 : start + n < text.length
          · simp only [if_pos h2] at hc
            exact ih (text.length - (start + n - ov)) (by omega) _ rfl c hc
          · simp [h2] at hc
      · simp [h1] at hc
  intro start
  exact key (text.length - start) start rfl

theorem chunkLoop_length_le (text : List Char) (n ov : Nat) (hov : ov < n) :
    ∀ start, (chunkLoop text n ov hov start).length ≤ text.length - start := by
  have key : ∀ k start, text.length - start = k →
      (chunkLoop text n ov hov start).length ≤ text.length - start := by
    intro k
    induction k using Nat.strong_induction_on with
    | _ k ih =>
      intro start hk
      rw [chunkLoop_unfold]
      by_cases h1 : start < text.length
      · by_cases h2 : start + n < text.length
        · have hrec := ih (text.length - (start + n - ov)) (by omega) (start + n - ov) rfl
          simp only [if_pos h1, if_pos h2, List.length_append]
          have : (if pyStrip ((text.drop start).take n) = [] then ([] : List (List Char))
              else [pyStrip ((text.drop start).take n)]).length ≤ 1 := by
            split_ifs <;> simp
          omega
        · simp only [if_pos h1, if_neg h2, List.length_append]
          have : (if pyStrip ((text.drop start).take n) = [] then ([] : List (List Char))
              else [pyStrip ((text.drop start).take n)]).length ≤ 1 := by
            split_ifs <;> simp
          simp only [List.length_nil]
          omega
      · simp [h1]
  intro start
  exact key (text.length - start) start rfl

theorem chunkLoop_mem_length (text : List Char) (n ov : Nat) (hov : ov < n) :
    ∀ start, ∀ c ∈ chunkLoop text n ov hov start, c.length ≤ n := by
  have key : ∀ k start, text.length - start = k →
      ∀ c ∈ chunkLoop text n ov hov start, c.length ≤ n := by
    intro k
    induction k using Nat.strong_induction_on with
    | _ k ih =>
      intro start hk c hc
      rw [chunkLoop_unfold] at hc
      by_cases h1 : start < text.length
      · simp only [if_pos h1, List.mem_append] at hc
        rcases hc with hc | hc
        · by_cases hps : pyStrip ((text.drop start).take n) = []
          · simp [hps] at hc
          · simp only [if_neg hps, List.mem_singleton] at hc
            subst hc
            calc (pyStrip ((text.drop start).take n)).length
                ≤ ((text.drop start).take n).length := pyStrip_length_le _
              _ ≤ n := List.length_take_le _ _
        · by_cases h2 : start + n < text.length
          · simp only [if_pos h2] at hc
            exact ih (text.length - (start + n - ov)) (by omega) _ rfl c hc
          · simp [h2] at hc
      · simp [h1] at hc
  intro start
  exact key (text.length - start) start rfl

theorem windowLoop_map_drop_join (text : List Char) (n ov : Nat) (hov : ov < n) :
    ∀ start, ((windowLoop text n ov hov start).map (List.drop ov)).flatten = text.drop (start + ov) := by
  have key : ∀ k start, text.length - start = k →
      ((windowLoop text n ov hov start).map (List.drop ov)).flatten = text.drop (start + ov) := by
    intro k
    induction k using Nat.strong_induction_on with
    | _ k ih =>
      intro start hk
      rw [windowLoop_unfold]
      by_cases h1 : start < text.length
      · by_cases h2 : start + n < text.length
        · have hrec := ih (text.length - (start + n - ov)) (by omega) (start + n - ov) rfl
          simp only [if_pos h1, if_pos h2, List.map_cons, List.flatten_cons, hrec]
          have hsub : start + n - ov + ov = start + n := by omega
          rw [hsub]
          rw [List.drop_take, List.drop_drop]
          have h3 : text.drop (start + n) = (text.drop (start + ov)).drop (n - ov) := by
            rw [List.drop_drop]
            congr 1
            omega
          rw [h3, List.take_append_drop]
        · simp only [if_pos h1, if_neg h2, List.map_cons, List.map_nil, List.flatten_cons,
            List.flatten_nil, List.append_nil]
          have : (text.drop start).take n = text.drop start :=
            List.take_of_length_le (by simp; omega)
          rw [this, List.drop_drop]
      · rw [if_neg h1]
        simp only [List.map_nil, List.flatten_nil]
        exact (List.drop_eq_nil_of_le (by omega)).symm
  intro start
  exact key (text.length - start) start rfl

theorem windowLoop_portions_join (text : List Char) (n ov : Nat) (hov : ov < n) (start : Nat) :
    (nonOverlapPortions ov (windowLoop text n ov hov start)).flatten = text.drop start := by
  rw [windowLoop_unfold]
  by_cases h1 : start < text.length
  · by_cases h2 : start + n < text.length
    · simp only [if_pos h1, if_pos h2, nonOverlapPortions, List.flatten_cons]
      rw [windowLoop_map_drop_join text n ov hov (start + n - ov)]
      rw [show start + n - ov + ov = start + n from by omega]
      rw [show text.drop (start + n) = (text.drop start).drop n from by
        rw [List.drop_drop]]
      exact List.take_append_drop n (text.drop start)
    · simp only [if_pos h1, if_neg h2, nonOverlapPortions, List.map_nil, List.flatten_cons,
        List.flatten_nil, List.append_nil]
      exact List.take_of_length_le (by simp; omega)
  · simp only [if_neg h1, nonOverlapPortions, List.flatten_nil]
    exact (List.drop_eq_nil_of_le (by omega)).symm

theorem windows_portions_join (text : List Char) (n ov : Nat) (h : ov < n) :
    (nonOverlapPortions ov (windows text n ov)).flatten = text := by
  rw [windows, dif_pos h, windowLoop_portions_join, List.drop_zero]

theorem chunk_text_pos (text : List Char) (cs co : Int) (h : 0 < cs) :
    chunk_text text cs co =
      .ok (chunkLoop text cs.toNat (clampOverlap cs co)
        (by simp only [clampOverlap]; omega) 0) := by
  simp only [chunk_text]
  rw [dif_neg (by omega)]

/-- C8: `chunk_text` fails with the configuration `ValueError` if and only
if `chunk_size <= 0`; for every positive `chunk_size` it returns normally
on every text and overlap. -/
theorem chunk_text_error_iff (text : List Char) (cs co : Int) :
    (chunk_text text cs co = .error "chunk_size must be positive" ↔ cs ≤ 0) ∧
    (0 < cs → ∃ l, chunk_text text cs co = .ok l) := by
  constructor
  · constructor
    · intro h
      by_contra hpos
      rw [chunk_text_pos text cs co (by omega)] at h
      exact Except.noConfusion h
    · intro h
      simp only [chunk_text, dif_pos h]
  · intro h
    exact ⟨_, chunk_text_pos text cs co h⟩

/-- C4: for every `chunk_size > 0` and every caller-supplied overlap,
`chunk_text` clamps the overlap into `[0, chunk_size - 1]`, so each loop
step advances by `chunk_size - overlap ≥ 1` and the scan terminates for
every finite text (returning at most one chunk per character). -/
theorem chunk_text_terminates (text : List Char) (cs co : Int) (h : 0 < cs) :
    (clampOverlap cs co ≤ cs.toNat - 1 ∧ 1 ≤ cs.toNat - clampOverlap cs co) ∧
    ∃ l, chunk_text text cs co = .ok l ∧ l.length ≤ text.length := by
  refine ⟨⟨?_, ?_⟩, ⟨_, chunk_text_pos text cs co h, ?_⟩⟩
  · simp only [clampOverlap]; omega
  · simp only [clampOverlap]; omega
  · have := chunkLoop_length_le text cs.toNat (clampOverlap cs co)
      (by simp only [clampOverlap]; omega) 0
    omega

/-- C10: every chunk `chunk_text` returns is a trimmed substring of a
window of width `chunk_size`, hence has length at most `chunk_size`. -/
theorem chunk_text_mem_length (text : List Char) (cs co : Int) (l : List (List Char))
    (h : chunk_text text cs co = .ok l) : ∀ c ∈ l, c.length ≤ cs.toNat := by
  by_cases hcs : cs ≤ 0
  · simp [chunk_text, dif_pos hcs] at h
  · rw [chunk_text_pos text cs co (by omega)] at h
    injection h with h
    subst h
    exact chunkLoop_mem_length text _ _ _ 0

theorem chunk_text_single_window (cs co : Int) (h : 0 < cs) :
    (∀ text : List Char, text.length ≤ cs.toNat →
      chunk_text text cs co = .ok (if pyStrip text = [] then [] else [pyStrip text])) ∧
    chunk_text [] cs co = .ok [] := by
  have main : ∀ text : List Char, text.length ≤ cs.toNat →
      chunk_text text cs co = .ok (if pyStrip text = [] then [] else [pyStrip text]) := by
    intro text hlen
    rw [chunk_text_pos text cs co h, chunkLoop_unfold]
    by_cases h0 : 0 < text.length
    · rw [if_pos h0]
      have hnl : ¬ 0 + cs.toNat < text.length := by omega
      rw [if_neg hnl]
      have htk : (text.drop 0).take cs.toNat = text := by
        rw [List.drop_zero]; exact List.take_of_length_le hlen
      rw [htk, List.append_nil]
    · rw [if_neg h0]
      have : text = [] := List.length_eq_zero.mp (by omega)
      subst this
      simp [pyStrip]
  refine ⟨main, ?_⟩
  rw [main [] (by simp)]
  simp [pyStrip]

/-- C3: for every text, `chunk_size > 0` and `0 ≤ overlap < chunk_size`,
`chunk_text` never returns an empty string element, and concatenating the
non-overlapping portions of the successive windows reconstructs the
original text's non-whitespace content in order. -/
theorem chunk_text_reconstructs (text : List Char) (cs co : Int)
    (h1 : 0 < cs) (h2 : 0 ≤ co) (h3 : co < cs) :
    (∃ l, chunk_text text cs co = .ok l ∧ ∀ c ∈ l, c ≠ []) ∧
    ((nonOverlapPortions co.toNat (windows text cs.toNat co.toNat)).flatten.filter
        (fun ch => !ch.isWhitespace) =
      text.filter (fun ch => !ch.isWhitespace)) := by
  have hov : co.toNat < cs.toNat := by omega
  constructor
  · exact ⟨_, chunk_text_pos text cs co h1, chunkLoop_ne_nil text _ _ _ 0⟩
  · rw [windows_portions_join text _ _ hov]

/-! ### Association-list (Python dict) lemmas -/

theorem assoc_replace {α : Type} (m : List (String × α)) (did : String) (r : α)
    (k : String) :
    ((m.map (fun p => if p.1 == did then (did, r) else p)).find?
        (fun p => p.1 == k)).map Prod.snd =
      if k = did then ((m.find? (fun p => p.1 == did)).map Prod.snd).map (fun _ => r)
      else (m.find? (fun p => p.1 == k)).map Prod.snd := by
  induction m with
  | nil => by_cases hk : k = did <;> simp [hk]
  | cons a t ih =>
    obtain ⟨ak, av⟩ := a
    simp only [List.map_cons]
    by_cases had : ak = did
    · rw [if_pos (show ((ak, av).1 == did) = true by simp [had])]
      by_cases hk : k = did
      · subst hk
        rw [List.find?_cons_of_pos _ (by simp), List.find?_cons_of_pos _ (by simp [had])]
        simp
      · rw [if_neg hk]
        rw [List.find?_cons_of_neg _ (by simp; exact Ne.symm hk),
            List.find?_cons_of_neg _ (by simp [had]; exact fun h => hk h.symm)]
        rw [ih, if_neg hk]
    · rw [if_neg (show ¬ ((ak, av).1 == did) = true by simp [had])]
      by_cases hk : k = did
      · rw [if_pos hk]
        subst hk
        rw [List.find?_cons_of_neg _ (by simp; exact fun h => had h),
            List.find?_cons_of_neg _ (by simp; exact fun h => had h)]
        rw [ih]
        simp
      · rw [if_neg hk]
        by_cases hak : k = ak
        · subst hak
          rw [List.find?_cons_of_pos _ (by simp), List.find?_cons_of_pos _ (by simp)]
        · rw [List.find?_cons_of_neg _ (by simp; exact Ne.symm hak),
              List.find?_cons_of_neg _ (by simp; exact Ne.symm hak)]
          rw [ih, if_neg hk]

theorem assoc_append_one {α : Type} (m : List (String × α)) (did : String) (r : α)
    (k : String) :
    ((m ++ [(did, r)]).find? (fun p => p.1 == k)).map Prod.snd =
      if ((m.find? (fun p => p.1 == k)).map Prod.snd).isSome then
        (m.find? (fun p => p.1 == k)).map Prod.snd
      else if k = did then some r else none := by
  rw [List.find?_append]
  cases hf : m.find? (fun p => p.1 == k) with
  | none => by_cases hk : k = did <;> simp [hk, Option.or, beq_iff_eq, Ne.symm]
  | some p => simp [Option.or]

theorem assoc_keys_replace {α : Type} (m : List (String × α)) (did : String) (r : α) :
    (m.map (fun p => if p.1 == did then (did, r) else p)).map Prod.fst =
      m.map Prod.fst := by
  induction m with
  | nil => rfl
  | cons a t ih =>
    obtain ⟨ak, av⟩ := a
    simp only [List.map_cons]
    by_cases had : ak = did
    · rw [if_pos (show ((ak, av).1 == did) = true by simp [had])]
      simp [had, ih]
      intro a b _
      split_ifs with h
      · exact h.symm
      · rfl
    · rw [if_neg (show ¬ ((ak, av).1 == did) = true by simp [had])]
      simp [ih]
      intro a b _
      split_ifs with h
      · exact h.symm
      · rfl

/-! ### Document Store lemmas -/

theorem Store.get_add (s : Store) (d : Document) (k : String) :
    Store.get (Store.add s d) k =
      if k = d.doc_id then some ⟨d.path, d.content⟩ else Store.get s k := by
  simp only [Store.add, Store.get]
  by_cases hex : ((s.find? (fun p => p.1 == d.doc_id)).map Prod.snd).isSome
  · rw [if_pos hex, assoc_replace]
    by_cases hk : k = d.doc_id
    · rw [if_pos hk, if_pos hk]
      obtain ⟨v, hv⟩ := Option.isSome_iff_exists.mp hex
      rw [hv]
      rfl
    · rw [if_neg hk, if_neg hk]
  · rw [if_neg hex, assoc_append_one]
    by_cases hk : k = d.doc_id
    · subst hk
      rw [if_pos rfl, if_pos rfl]
      rw [Bool.eq_false_iff.mpr hex]
      rfl
    · rw [if_neg hk, if_neg hk]
      by_cases hs : ((s.find? (fun p => p.1 == k)).map Prod.snd).isSome
      · rw [if_pos hs]
      · rw [if_neg hs]
        exact (Option.not_isSome_iff_eq_none.mp hs).symm

theorem Store.get_foldl_add (documents : List Document) :
    ∀ (s : Store) (k : String),
      (Store.get (documents.foldl Store.add s) k).isSome ↔
        ((Store.get s k).isSome ∨ k ∈ documents.map Document.doc_id) := by
  induction documents with
  | nil => simp
  | cons d ds ih =>
    intro s k
    simp only [List.foldl_cons, List.map_cons, List.mem_cons]
    rw [ih, Store.get_add]
    by_cases hk : k = d.doc_id
    · simp [hk]
    · simp [hk]

/-! ### `build_index` lemmas -/

theorem build_index_store (dd da cn : String) (documents : List Document)
    (prior : Store) (cs co : Int) (em : Embedder) (rebuild : Bool) :
    (build_index dd da cn documents prior cs co em rebuild).store =
      documents.foldl Store.add (if rebuild then [] else prior) := by
  unfold build_index
  cases buildChunks documents cs co with
  | error e => rfl
  | ok chunks =>
    by_cases hc : chunks.isEmpty
    · simp only [hc, if_true]
    · simp only [Bool.eq_false_iff.mpr hc, if_false]
      cases em.embed_texts (chunks.map Chunk.content) with
      | error e => rfl
      | ok embeddings => rfl

/-- C2: an incremental build (`rebuild = False`) loads the existing
Document Store and only adds or overwrites records for the loaded
documents, never removing stale ones; with prior records A and B and a
documents directory now holding A and C, the store afterwards holds A, B
and C.  A rebuild discards prior contents first, so afterwards the store
holds exactly the loaded documents. -/
theorem build_index_store_membership (dd da cn : String)
    (documents : List Document) (prior : Store) (cs co : Int) (em : Embedder) :
    (∀ k, (Store.get (build_index dd da cn documents prior cs co em false).store k).isSome ↔
        ((Store.get prior k).isSome ∨ k ∈ documents.map Document.doc_id)) ∧
    (∀ k, (Store.get (build_index dd da cn documents prior cs co em true).store k).isSome ↔
        k ∈ documents.map Document.doc_id) ∧
    ((build_index "docs" "data" "rag"
        [⟨"A", "docs/a.txt", "alpha text".toList⟩, ⟨"C", "docs/c.txt", "gamma text".toList⟩]
        [("A", ⟨"docs/a.txt", "old alpha".toList⟩), ("B", ⟨"docs/b.txt", "beta text".toList⟩)]
        100 10 em false).store.map Prod.fst) = ["A", "B", "C"] := by
  refine ⟨?_, ?_, ?_⟩
  · intro k
    rw [build_index_store, Store.get_foldl_add]
    simp
  · intro k
    rw [build_index_store, Store.get_foldl_add]
    simp [Store.get]
  · rw [build_index_store]
    decide

/-- C5: `build_index` has no partial rollback — the Document Store is
persisted (with every loaded document added) before embedding, so when
`embed_texts` fails the build returns that error, the persisted store
still holds the update, and nothing was upserted. -/
theorem build_index_no_rollback (dd da cn : String) (documents : List Document)
    (prior : Store) (cs co : Int) (em : Embedder) (rebuild : Bool) (e : String)
    (chunks : List Chunk) (hchunks : buildChunks documents cs co = .ok chunks)
    (hne : chunks ≠ []) (hfail : em.embed_texts (chunks.map Chunk.content) = .error e) :
    build_index dd da cn documents prior cs co em rebuild =
      ⟨.error e, documents.foldl Store.add (if rebuild then [] else prior),
       [chunks.map Chunk.content], []⟩ := by
  have hemp : chunks.isEmpty = false := by
    cases chunks
    · exact absurd rfl hne
    · rfl
  unfold build_index
  rw [hchunks]
  simp [hemp, hfail]

/-- C5 witness: a concrete one-document build with an embedder that
fails; the store still holds the document and the error propagates. -/
theorem build_index_no_rollback_witness :
    buildChunks [⟨"A", "docs/a.txt", "hello".toList⟩] 10 0 =
      .ok [⟨"A:0", "A", "hello".toList, "docs/a.txt", 0⟩] ∧
    build_index "docs" "data" "rag" [⟨"A", "docs/a.txt", "hello".toList⟩] [] 10 0
        ⟨fun _ => .error "backend missing"⟩ false =
      ⟨.error "backend missing", [("A", ⟨"docs/a.txt", "hello".toList⟩)],
       [["hello".toList]], []⟩ := by
  have hb : buildChunks [⟨"A", "docs/a.txt", "hello".toList⟩] 10 0 =
      .ok [⟨"A:0", "A", "hello".toList, "docs/a.txt", 0⟩] := by
    have h1 : chunk_text ['h','e','l','l','o'] 10 0 = .ok [['h','e','l','l','o']] := by
      show chunk_text "hello".toList 10 0 = .ok ["hello".toList]
      rw [(chunk_text_single_window 10 0 (by norm_num)).1 "hello".toList (by decide)]
      decide
    simp [buildChunks, h1]
    decide
  refine ⟨hb, ?_⟩
  rw [build_index_no_rollback "docs" "data" "rag" _ _ 10 0 _ false "backend missing"
    [⟨"A:0", "A", "hello".toList, "docs/a.txt", 0⟩] hb (by decide) rfl]
  decide

/-- C6: when chunking yields zero chunks, `build_index` returns a summary
with `chunk_count = 0`, does not raise, does not call `embed_texts`, and
upserts nothing. -/
theorem build_index_zero_chunks (dd da cn : String) (documents : List Document)
    (prior : Store) (cs co : Int) (em : Embedder) (rebuild : Bool)
    (h : buildChunks documents cs co = .ok []) :
    build_index dd da cn documents prior cs co em rebuild =
      ⟨.ok ⟨dd, da, cn, documents.length, 0⟩,
       documents.foldl Store.add (if rebuild then [] else prior), [], []⟩ := by
  unfold build_index
  rw [h]
  rfl

/-- C6 witness: an empty documents directory loads zero documents, so the
build returns `chunk_count = 0` with no embedding call and no upsert. -/
theorem build_index_zero_chunks_witness :
    build_index "docs" "data" "rag" [] [] 7 2 ⟨fun _ => .ok []⟩ true =
      ⟨.ok ⟨"docs", "data", "rag", 0, 0⟩, [], [], []⟩ :=
  build_index_zero_chunks "docs" "data" "rag" [] [] 7 2 ⟨fun _ => .ok []⟩ true rfl

/-- C7: with an empty Document Store, `query_index` returns
`{query, results: []}` immediately, calling neither `embed_texts` nor the
vector-store query. -/
theorem query_index_empty_store (q : List Char) (store : Store) (top_k : Nat)
    (em : Embedder)
    (vstore : List (List ℚ) → Nat → List (Option HitMeta) × List ℚ)
    (h : Store.count store = 0) :
    query_index q store top_k em vstore = ⟨.ok ⟨q, []⟩, 0, false⟩ := by
  unfold query_index
  rw [if_pos h]

/-- C7 witness: a concrete query against an empty store. -/
theorem query_index_empty_store_witness :
    query_index "alpha topic".toList [] 3 ⟨fun _ => .ok []⟩ (fun _ _ => ([], [])) =
      ⟨.ok ⟨"alpha topic".toList, []⟩, 0, false⟩ :=
  query_index_empty_store "alpha topic".toList [] 3 ⟨fun _ => .ok []⟩
    (fun _ _ => ([], [])) rfl

/-! ### Query aggregation lemmas -/

/-- Merge of two optional minima. -/
def mergeMin : Option ℚ → Option ℚ → Option ℚ
  | none, b => b
  | some a, none => some a
  | some a, some b => some (min a b)

theorem mergeMin_none_right (a : Option ℚ) : mergeMin a none = a := by
  cases a <;> rfl

theorem mergeMin_assoc (a b c : Option ℚ) :
    mergeMin (mergeMin a b) c = mergeMin a (mergeMin b c) := by
  cases a <;> cases b <;> cases c <;> simp [mergeMin, min_assoc]

theorem lookupQ_replace (m : List (String × ℚ)) (did : String) (x : ℚ) (k : String) :
    lookupQ (m.map (fun p => if p.1 == did then (did, x) else p)) k =
      if k = did then (lookupQ m did).map (fun _ => x) else lookupQ m k :=
  assoc_replace m did x k

theorem lookupQ_append_one (m : List (String × ℚ)) (did : String) (x : ℚ) (k : String) :
    lookupQ (m ++ [(did, x)]) k =
      if (lookupQ m k).isSome then lookupQ m k
      else if k = did then some x else none :=
  assoc_append_one m did x k

theorem lookupQ_isSome_iff (m : List (String × ℚ)) (k : String) :
    (lookupQ m k).isSome ↔ k ∈ m.map Prod.fst := by
  simp only [lookupQ, Option.isSome_map', List.find?_isSome, List.mem_map, beq_iff_eq]

theorem lookupQ_updateBest (m : List (String × ℚ)) (meta : Option HitMeta) (dist : ℚ)
    (k : String) :
    lookupQ (updateBest m meta dist) k =
      mergeMin (lookupQ m k) (if hitId meta = some k then some dist else none) := by
  unfold updateBest
  cases hid : hitId meta with
  | none => rw [if_neg (by simp), mergeMin_none_right]
  | some d =>
    cases hcur : lookupQ m d with
    | none =>
      simp only [hcur]
      rw [lookupQ_append_one]
      by_cases hk : k = d
      · subst hk
        rw [hcur]
        simp [mergeMin]
      · rw [if_neg (show ¬ (some d = some k) from by simp [Ne.symm hk])]
        rw [mergeMin_none_right]
        cases h : lookupQ m k with
        | none => simp [hk]
        | some v => simp
    | some cur =>
      simp only [hcur]
      by_cases hlt : dist < cur
      · rw [if_pos hlt, lookupQ_replace]
        by_cases hk : k = d
        · subst hk
          rw [if_pos rfl, hcur, if_pos rfl]
          simp [mergeMin, min_eq_right (le_of_lt hlt)]
        · rw [if_neg hk, if_neg (show ¬ (some d = some k) from by simp [Ne.symm hk]),
            mergeMin_none_right]
      · rw [if_neg hlt]
        by_cases hk : k = d
        · subst hk
          rw [if_pos rfl, hcur]
          simp [mergeMin, min_eq_left (le_of_not_lt hlt)]
        · rw [if_neg (show ¬ (some d = some k) from by simp [Ne.symm hk]),
            mergeMin_none_right]

theorem foldl_min_init (t : List ℚ) : ∀ a b : ℚ, t.foldl min (min a b) = min a (t.foldl min b) := by
  induction t with
  | nil => intro a b; rfl
  | cons c t ih =>
    intro a b
    simp only [List.foldl_cons]
    rw [min_assoc, ih]

theorem min?_cons_q (a : ℚ) (l : List ℚ) : (a :: l).min? = mergeMin (some a) l.min? := by
  cases l with
  | nil => rfl
  | cons b t =>
    show some (List.foldl min a (b :: t)) = some (min a (List.foldl min b t))
    rw [List.foldl_cons, foldl_min_init]

theorem minDistSpec_cons (meta : Option HitMeta) (dist : ℚ)
    (rest : List (Option HitMeta × ℚ)) (k : String) :
    minDistSpec ((meta, dist) :: rest) k =
      mergeMin (if hitId meta = some k then some dist else none) (minDistSpec rest k) := by
  unfold minDistSpec
  by_cases h : hitId meta = some k
  · rw [List.filter_cons_of_pos (by simp [h]), List.map_cons, min?_cons_q, if_pos h]
  · rw [List.filter_cons_of_neg (by simp [h]), if_neg h]
    rfl

theorem lookupQ_foldl (hits : List (Option HitMeta × ℚ)) :
    ∀ (m : List (String × ℚ)) (k : String),
      lookupQ (hits.foldl (fun m h => updateBest m h.1 h.2) m) k =
        mergeMin (lookupQ m k) (minDistSpec hits k) := by
  induction hits with
  | nil =>
    intro m k
    simp only [List.foldl_nil]
    rw [show minDistSpec [] k = none from rfl, mergeMin_none_right]
  | cons hit rest ih =>
    intro m k
    obtain ⟨meta, dist⟩ := hit
    simp only [List.foldl_cons]
    rw [ih, lookupQ_updateBest, minDistSpec_cons, mergeMin_assoc]

theorem lookupQ_bestScores (hits : List (Option HitMeta × ℚ)) (k : String) :
    lookupQ (bestScores hits) k = minDistSpec hits k := by
  unfold bestScores
  rw [lookupQ_foldl]
  rfl

theorem updateBest_keys_nodup (m : List (String × ℚ)) (meta : Option HitMeta)
    (dist : ℚ) (h : (m.map Prod.fst).Nodup) :
    ((updateBest m meta dist).map Prod.fst).Nodup := by
  unfold updateBest
  cases hitId meta with
  | none => exact h
  | some d =>
    cases hcur : lookupQ m d with
    | none =>
      simp only [hcur]
      have hd : d ∉ m.map Prod.fst := by
        intro hmem
        have hs := (lookupQ_isSome_iff m d).mpr hmem
        rw [hcur] at hs
        exact Option.noConfusion ((Option.isSome_iff_exists.mp hs).choose_spec)
      simp [List.nodup_append, h, hd, List.disjoint_singleton]
    | some cur =>
      simp only [hcur]
      by_cases hlt : dist < cur
      · rw [if_pos hlt, assoc_keys_replace]
        exact h
      · rw [if_neg hlt]
        exact h

theorem bestScores_keys_nodup (hits : List (Option HitMeta × ℚ)) :
    ((bestScores hits).map Prod.fst).Nodup := by
  unfold bestScores
  have key : ∀ (m : List (String × ℚ)), (m.map Prod.fst).Nodup →
      ((hits.foldl (fun m h => updateBest m h.1 h.2) m).map Prod.fst).Nodup := by
    induction hits with
    | nil => intro m hm; exact hm
    | cons hit rest ih =>
      intro m hm
      simp only [List.foldl_cons]
      exact ih _ (updateBest_keys_nodup m hit.1 hit.2 hm)
  exact key [] (by simp)

theorem lookupQ_of_mem (m : List (String × ℚ)) (hnd : (m.map Prod.fst).Nodup) :
    ∀ p ∈ m, lookupQ m p.1 = some p.2 := by
  induction m with
  | nil => intro p hp; cases hp
  | cons a t ih =>
    intro p hp
    rcases List.mem_cons.mp hp with rfl | hp
    · unfold lookupQ
      rw [List.find?_cons_of_pos _ (by simp)]
      rfl
    · have hnd' : ((a :: t).map Prod.fst).Nodup := hnd
      rw [List.map_cons, List.nodup_cons] at hnd'
      have ha : ¬ a.1 = p.1 := by
        intro he
        exact hnd'.1 (he ▸ List.mem_map_of_mem Prod.fst hp)
      unfold lookupQ
      rw [List.find?_cons_of_neg _ (by simp [ha])]
      exact ih hnd'.2 p hp

instance : IsTotal (String × ℚ) (fun a b => a.2 ≤ b.2) :=
  ⟨fun a b => le_total a.2 b.2⟩

instance : IsTrans (String × ℚ) (fun a b => a.2 ≤ b.2) :=
  ⟨fun _ _ _ h h2 => le_trans h h2⟩

/-- C9: for text no longer than `chunk_size`, `chunk_text` returns exactly
one chunk — the stripped text — or zero chunks when it strips to empty;
in particular the empty text yields `[]` for every valid size and
overlap. -/
theorem chunk_text_short_text (cs co : Int) (h : 0 < cs) :
    (∀ text : List Char, text.length ≤ cs.toNat →
      chunk_text text cs co = .ok (if pyStrip text = [] then [] else [pyStrip text])) ∧
    chunk_text [] cs co = .ok [] :=
  chunk_text_single_window cs co h

/-- C9 witness: a five-character text with `chunk_size = 5` yields exactly
its stripped form. -/
theorem chunk_text_short_text_witness :
    chunk_text " hi  ".toList 5 2 = .ok ["hi".toList] := by
  rw [(chunk_text_short_text 5 2 (by norm_num)).1 " hi  ".toList (by decide)]
  decide

/-- C3 witness: a concrete chunking with overlap. -/
theorem chunk_text_reconstructs_witness :
    (∃ l, chunk_text "a b".toList 3 1 = .ok l ∧ ∀ c ∈ l, c ≠ []) ∧
    ((nonOverlapPortions (1:Int).toNat
        (windows "a b".toList (3:Int).toNat (1:Int).toNat)).flatten.filter
          (fun ch => !ch.isWhitespace) =
      "a b".toList.filter (fun ch => !ch.isWhitespace)) :=
  chunk_text_reconstructs "a b".toList 3 1 (by norm_num) (by norm_num) (by norm_num)

/-- C4 witness: an overlap far larger than the chunk size is clamped and
the scan still terminates normally. -/
theorem chunk_text_terminates_witness :
    (clampOverlap 3 99 ≤ (3:Int).toNat - 1 ∧ 1 ≤ (3:Int).toNat - clampOverlap 3 99) ∧
    ∃ l, chunk_text "abcdef".toList 3 99 = .ok l ∧
      l.length ≤ "abcdef".toList.length :=
  chunk_text_terminates "abcdef".toList 3 99 (by norm_num)

/-- C8 witness: a negative chunk size raises, a positive one returns. -/
theorem chunk_text_error_iff_witness :
    chunk_text "ab".toList (-1) 0 = .error "chunk_size must be positive" ∧
    ∃ l, chunk_text "ab".toList 3 1 = .ok l :=
  ⟨(chunk_text_error_iff "ab".toList (-1) 0).1.mpr (by norm_num),
   (chunk_text_error_iff "ab".toList 3 1).2 (by norm_num)⟩

/-- C10 witness: every chunk of a concrete chunking is at most
`chunk_size` long. -/
theorem chunk_text_mem_length_witness : ("abc".toList).length ≤ (3:Int).toNat := by
  refine chunk_text_mem_length "abcdef".toList 3 1
    ["abc".toList, "cde".toList, "ef".toList] ?_ "abc".toList (by decide)
  rw [chunk_text_pos _ _ _ (by norm_num)]
  simp only [show ((3:Int)).toNat = 3 from rfl, show clampOverlap 3 1 = 1 from by decide]
  simp [chunkLoop]
  decide

/-- C1: for every list of chunk hits, `query_index` aggregation keeps the
minimum distance per doc id (hits with a missing or empty `doc_id` are
discarded), ranks doc ids by that minimum distance ascending, keeps the
first `top_k`, and emits for each surviving document a score equal to
`1.0 - distance`, not clamped (it can go negative for distance `> 1`);
in particular hits `[(docA, 0.3), (docA, 0.1), (docB, 0.2)]` with
`top_k = 2` rank docA at 0.1 before docB at 0.2. -/
theorem query_aggregation (hits : List (Option HitMeta × ℚ)) (top_k : Nat)
    (store : Store) :
    (rankedDocs hits top_k).length ≤ top_k ∧
    (rankedDocs hits top_k).Pairwise (fun a b => a.2 ≤ b.2) ∧
    (∀ p ∈ rankedDocs hits top_k, minDistSpec hits p.1 = some p.2) ∧
    (∀ k, (minDistSpec hits k).isSome ↔ k ∈ (bestScores hits).map Prod.fst) ∧
    (∀ r ∈ buildResponse (rankedDocs hits top_k) store,
      ∃ p ∈ rankedDocs hits top_k, ∃ rec, Store.get store p.1 = some rec ∧
        r = ⟨p.1, rec.path, 1 - p.2, rec.content⟩) ∧
    rankedDocs [(some ⟨some "docA"⟩, mkRat 3 10), (some ⟨some "docA"⟩, mkRat 1 10),
        (some ⟨some "docB"⟩, mkRat 2 10)] 2 =
      [("docA", mkRat 1 10), ("docB", mkRat 2 10)] ∧
    buildResponse [("docA", mkRat 3 2)] [("docA", ⟨"docs/a.txt", "alpha text".toList⟩)] =
      [⟨"docA", "docs/a.txt", -(mkRat 1 2), "alpha text".toList⟩] := by
  refine ⟨List.length_take_le _ _, ?_, ?_, ?_, ?_, ?_, ?_⟩
  · have hs : (List.insertionSort (fun (a b : String × ℚ) => a.2 ≤ b.2)
        (bestScores hits)).Pairwise (fun (a b : String × ℚ) => a.2 ≤ b.2) :=
      List.sorted_insertionSort (fun (a b : String × ℚ) => a.2 ≤ b.2) (bestScores hits)
    exact List.Pairwise.sublist (List.take_sublist _ _) hs
  · intro p hp
    have hp0 : p ∈ (List.insertionSort (fun (a b : String × ℚ) => a.2 ≤ b.2)
        (bestScores hits)).take top_k := hp
    have hp2 : p ∈ bestScores hits :=
      ((List.perm_insertionSort (fun (a b : String × ℚ) => a.2 ≤ b.2)
        (bestScores hits)).mem_iff).mp (List.mem_of_mem_take hp0)
    rw [← lookupQ_bestScores]
    exact lookupQ_of_mem _ (bestScores_keys_nodup hits) p hp2
  · intro k
    rw [← lookupQ_bestScores]
    exact lookupQ_isSome_iff _ _
  · intro r hr
    rcases List.mem_filterMap.mp hr with ⟨p, hp, hf⟩
    rcases Option.map_eq_some'.mp hf with ⟨rec, hrec, hmk⟩
    exact ⟨p, hp, rec, hrec, hmk.symm⟩
  · decide
  · have hsc : (1:ℚ) - mkRat 3 2 = -(mkRat 1 2) := by norm_num [Rat.mkRat_eq_div]
    simp [buildResponse, Store.get, hsc]

/-- C1 witness: at a concrete hit list the emitted distance for docA is
the minimum of its two hit distances. -/
theorem query_aggregation_witness :
    minDistSpec [(some ⟨some "docA"⟩, mkRat 3 10), (some ⟨some "docA"⟩, mkRat 1 10),
        (some ⟨some "docB"⟩, mkRat 2 10)] "docA" = some (mkRat 1 10) :=
  (query_aggregation [(some ⟨some "docA"⟩, mkRat 3 10), (some ⟨some "docA"⟩, mkRat 1 10),
      (some ⟨some "docB"⟩, mkRat 2 10)] 2 []).2.2.1 ("docA", mkRat 1 10) (by decide)

end Rag
